import Mathlib

/-!
Verification of the ZotWatch recommendation ranking and caching engine.

Shallow embedding of the components under scrutiny:
* `pipeline/filters.py` — `filter_recent`, `limit_preprints`, `filter_without_abstract`
* `utils/datetime.py` — `utc_today_start` (behaviour pinned by `tests/test_datetime.py`)
* `infrastructure/cache_base.py` — `BaseSQLiteCache.cleanup_expired`
* `llm/retry.py` — `with_retry`, `_get_retry_after`, `_add_jitter`
* `pipeline/profile_ranker.py` — `ProfileRanker._compute_thresholds`
* `pipeline/score.py` — `WorkRanker._compute_impact_factor_score`, `WorkRanker.rank`

Python floats are modelled as exact rationals (`ℚ`) where only field arithmetic
occurs, and as reals (`ℝ`) where `math.log` is involved.  Timestamps (timezone
aware UTC datetimes in the source) are modelled as integer epoch seconds.
-/

namespace ZotWatch

/-! ### Data model (`core/models.py`, attributes used by the embedded code) -/

/-- A discovered paper (`CandidateWork`).  `issns` models `extra["issns"]`,
`published` is an epoch-seconds instant. -/
structure CandidateWork where
  source : String
  identifier : String
  title : String
  abstract : Option String
  url : String
  published : Option ℤ
  issns : List String
  deriving DecidableEq, Repr

/-- A ranked paper (`RankedWork`): candidate attributes plus the score data the
filters may inspect. -/
structure RankedWork where
  source : String
  identifier : String
  title : String
  abstract : Option String
  url : String
  published : Option ℤ
  score : ℚ
  similarity : ℚ
  label : String
  deriving DecidableEq, Repr

/-! ### `utils/datetime.py`

The implementation file is not under `src/`, but `tests/test_datetime.py`
(which is) pins `utc_today_start` to "today's date at 00:00:00 UTC, timezone
aware"; on epoch seconds that is flooring to the day boundary.  Python's
floor division agrees with `Int.ediv`, which is Lean's `/` on `ℤ`. -/

def secondsPerDay : ℤ := 86400

/-- Mirrors `zotwatch.utils.datetime.utc_today_start` (pinned by
`tests/test_datetime.py::TestUtcTodayStart`): midnight UTC of the day
containing `now`. -/
def utc_today_start (now : ℤ) : ℤ := secondsPerDay * (now / secondsPerDay)

/-! ### `pipeline/filters.py` -/

/-- Mirrors `PREPRINT_SOURCES = frozenset({"arxiv", "biorxiv", "medrxiv"})`. -/
def PREPRINT_SOURCES : List String := ["arxiv", "biorxiv", "medrxiv"]

/-- Python `str.lower` restricted to what the code needs: character-wise
lowercasing. -/
def strToLower (s : String) : String := ⟨s.data.map Char.toLower⟩

/-- The membership test `work.source.lower() in PREPRINT_SOURCES`. -/
def isPreprint (w : RankedWork) : Bool := PREPRINT_SOURCES.contains (strToLower w.source)

/-- The list-comprehension predicate of `filter_recent`:
`work.published and work.published >= cutoff` (a `datetime` is never falsy,
so truthiness is exactly presence). -/
def keepRecent (cutoff : ℤ) (w : RankedWork) : Bool :=
  match w.published with
  | some p => decide (cutoff ≤ p)
  | none => false

/-- Mirrors `filter_recent(ranked, days=days)` evaluated when the wall clock
reads `now`: cutoff is `utc_today_start() - timedelta(days=days)`. -/
def filter_recent (ranked : List RankedWork) (days : ℤ) (now : ℤ) : List RankedWork :=
  if days ≤ 0 then ranked
  else ranked.filter (keepRecent (utc_today_start now - secondsPerDay * days))

/-- The `for` loop of `limit_preprints`: `flen` is `len(filtered)` and `pc` is
`preprint_count` so far. -/
def limitPreprintsGo (cap : ℚ) : List RankedWork → ℕ → ℕ → List RankedWork
  | [], _, _ => []
  | w :: rest, flen, pc =>
    if isPreprint w then
      if ((pc : ℚ) + 1) / ((flen : ℚ) + 1) > cap then limitPreprintsGo cap rest flen pc
      else w :: limitPreprintsGo cap rest (flen + 1) (pc + 1)
    else w :: limitPreprintsGo cap rest (flen + 1) pc

/-- Mirrors `limit_preprints(ranked, max_ratio=cap)` including the
`if not ranked or max_ratio <= 0: return ranked` guard. -/
def limit_preprints (ranked : List RankedWork) (cap : ℚ) : List RankedWork :=
  if ranked = [] ∨ cap ≤ 0 then ranked
  else limitPreprintsGo cap ranked 0 0

/-- Count of preprint-source works in a list (used to state the preprint
fraction bound). -/
def countPreprints (l : List RankedWork) : ℕ := (l.filter isPreprint).length

/-- Python truthiness of the optional `abstract` string: `if c.abstract`. -/
def hasAbstract (c : CandidateWork) : Bool :=
  match c.abstract with
  | some a => decide (a ≠ "")
  | none => false

/-- Mirrors `filter_without_abstract(candidates)` returning the kept list and
the removed count. -/
def filter_without_abstract (candidates : List CandidateWork) : List CandidateWork × ℕ :=
  let filtered := candidates.filter hasAbstract
  (filtered, candidates.length - filtered.length)

/-! ### `infrastructure/cache_base.py` -/

/-- One row of a `BaseSQLiteCache` table: its key and the nullable
expires-at column (epoch seconds; SQLite compares its `datetime` strings
chronologically, which order-embeds into `ℤ`). -/
structure CacheRow where
  key : String
  expires_at : Option ℤ
  deriving DecidableEq, Repr

/-- The SQL predicate `expires_col IS NOT NULL AND expires_col <= datetime('now')`. -/
def sqlExpired (now : ℤ) (r : CacheRow) : Bool :=
  match r.expires_at with
  | some t => decide (t ≤ now)
  | none => false

/-- Mirrors `BaseSQLiteCache.cleanup_expired`: the DELETE keeps exactly the
rows not matching the WHERE clause, and `cur.rowcount` is the number of
deleted rows. -/
def cleanup_expired (rows : List CacheRow) (now : ℤ) : List CacheRow × ℕ :=
  let kept := rows.filter (fun r => ! sqlExpired now r)
  (kept, rows.length - kept.length)

/-! ### `llm/retry.py`

The wrapped callable is modelled by the sequence of outcomes of its attempts
(`outcomes i` is what attempt `i` does), and `random.uniform(-jitter, jitter)`
by an oracle `draws i` giving the draw used for the sleep after attempt `i`.
The wrapper's observable behaviour is its result and the list of `time.sleep`
durations, in order. -/

/-- A `requests.Response` as far as the retry wrapper reads it: status code and
the numeric value of a parseable, non-empty `Retry-After` header (`none` when
the header is absent, empty, or fails `float()`). -/
structure HttpResponse where
  status : ℕ
  retryAfter : Option ℚ
  deriving DecidableEq, Repr

/-- What one attempt of the wrapped function does: return, raise
`requests.exceptions.HTTPError` (with `e.response` possibly `None`), or raise a
`ConnectionError` / `Timeout` whose Python class name is `name`. -/
inductive Outcome (T : Type) where
  | success (v : T)
  | httpError (resp : Option HttpResponse)
  | connError (name : String)
  deriving DecidableEq, Repr

/-- Mirrors `RETRYABLE_STATUS_CODES = {429, 500, 502, 503, 504}`. -/
def RETRYABLE_STATUS_CODES : List ℕ := [429, 500, 502, 503, 504]

/-- Mirrors `_get_retry_after(response, default)`. -/
def _get_retry_after (resp : Option HttpResponse) (dflt : ℚ) : ℚ :=
  match resp with
  | none => dflt
  | some r =>
    match r.retryAfter with
    | some q => q
    | none => dflt

/-- Mirrors `_add_jitter(delay, jitter)` with the uniform draw `u` made
explicit: `delay * (1 + u)` where `u = random.uniform(-jitter, jitter)`. -/
def _add_jitter (delay u : ℚ) : ℚ := delay * (1 + u)

/-- The aggregated error detail: `f"HTTP {last_status_code}"` when
`last_status_code` is truthy, otherwise `type(last_exception).__name__`. -/
inductive ErrorDetail where
  | http (status : ℕ)
  | excName (name : String)
  deriving DecidableEq, Repr

/-- `error_detail` of the final `NetworkError` (`last_status_code` is falsy
when `None` or `0`). -/
def mkDetail (lastStatus : Option ℕ) (lastExc : Option String) : ErrorDetail :=
  match lastStatus with
  | some c => if c ≠ 0 then .http c else .excName (lastExc.getD "NoneType")
  | none => .excName (lastExc.getD "NoneType")

/-- How a `with_retry` call ends: normal return, the immediate `NetworkError`
for a non-retryable HTTP status (raised during attempt index `attempt`), or
the aggregated `NetworkError` after exhausting `attempts` attempts. -/
inductive RetryResult (T : Type) where
  | ok (v : T)
  | nonRetryable (status : ℕ) (attempt : ℕ)
  | exhausted (attempts : ℕ) (detail : ErrorDetail)
  deriving DecidableEq, Repr

/-- The `for attempt in range(max_attempts)` loop of `with_retry`.  `fuel` is
the number of attempts still allowed, `attempt` the current index, `delay` the
current backoff, `lastStatus`/`lastExc` the `last_status_code` /
`last_exception` class name.  Sleeping happens only when this is not the last
attempt (`attempt < max_attempts - 1`, i.e. `fuel > 1`). -/
def runRetryGo {T : Type} (backoff : ℚ) (outcomes : ℕ → Outcome T) (draws : ℕ → ℚ) :
    (fuel : ℕ) → (attempt : ℕ) → (delay : ℚ) → (lastStatus : Option ℕ) →
    (lastExc : Option String) → RetryResult T × List ℚ
  | 0, attempt, _, lastStatus, lastExc => (.exhausted attempt (mkDetail lastStatus lastExc), [])
  | fuel + 1, attempt, delay, lastStatus, _lastExc =>
    let tryNext := fun (delay' : ℚ) (ls : Option ℕ) (le : Option String) =>
      if fuel = 0 then
        runRetryGo backoff outcomes draws fuel (attempt + 1) delay' ls le
      else
        let s := _add_jitter delay' (draws attempt)
        let r := runRetryGo backoff outcomes draws fuel (attempt + 1) (delay' * backoff) ls le
        (r.1, s :: r.2)
    match outcomes attempt with
    | .success v => (.ok v, [])
    | .httpError resp =>
      match resp.map HttpResponse.status with
      | some c =>
        if c ∈ RETRYABLE_STATUS_CODES then
          tryNext (if c = 429 then _get_retry_after resp delay else delay)
            (some c) (some "HTTPError")
        else (.nonRetryable c attempt, [])
      | none => tryNext delay none (some "HTTPError")
    | .connError name => tryNext delay lastStatus (some name)

/-- Mirrors a call to a function wrapped by
`with_retry(max_attempts, backoff_factor, initial_delay, jitter)`; the jitter
parameter only constrains the oracle `draws` (each draw lies in
`[-jitter, jitter]`), so it appears in theorems as a hypothesis on `draws`. -/
def with_retry {T : Type} (max_attempts : ℕ) (backoff_factor initial_delay : ℚ)
    (outcomes : ℕ → Outcome T) (draws : ℕ → ℚ) : RetryResult T × List ℚ :=
  runRetryGo backoff_factor outcomes draws max_attempts 0 initial_delay none none

/-- An outcome on which the `except` handlers keep looping: a connection
error / timeout, an `HTTPError` with no response object, or an `HTTPError`
whose status is in the retryable set. -/
def Outcome.isTransientRetryable {T : Type} : Outcome T → Bool
  | .success _ => false
  | .httpError resp =>
    match resp.map HttpResponse.status with
    | some c => RETRYABLE_STATUS_CODES.contains c
    | none => true
  | .connError _ => true

/-- An outcome that does not trigger the `Retry-After` override: anything but
a 429 response carrying a parseable numeric `Retry-After` value. -/
def Outcome.noSuggestedDelay {T : Type} : Outcome T → Bool
  | .httpError (some r) => ! (r.status = 429 && r.retryAfter.isSome)
  | _ => true

/-- `last_status_code` after handling a failing outcome: an `HTTPError`
overwrites it with its (possibly absent) status, other failures leave it. -/
def stepState {T : Type} (o : Outcome T) (ls : Option ℕ) : Option ℕ :=
  match o with
  | .httpError resp => resp.map HttpResponse.status
  | .connError _ => ls
  | .success _ => ls

/-- The Python class name recorded as `last_exception` for a failing outcome. -/
def stepExc {T : Type} : Outcome T → String
  | .httpError _ => "HTTPError"
  | .connError n => n
  | .success _ => ""

/-- The delay after the 429 `Retry-After` override for one failing outcome. -/
def stepDelay {T : Type} (o : Outcome T) (delay : ℚ) : ℚ :=
  match o with
  | .httpError resp =>
    match resp.map HttpResponse.status with
    | some c => if c = 429 then _get_retry_after resp delay else delay
    | none => delay
  | _ => delay

/-- The aggregated detail when the same failure `o` happened on every attempt. -/
def detailFor {T : Type} (o : Outcome T) : ErrorDetail :=
  mkDetail (stepState o none) (some (stepExc o))

/-- The sleep sequence of a jitter-free run of `n` attempts that all fail
without a `Retry-After` override, starting from delay `d` with backoff factor
`b`: `n - 1` sleeps growing geometrically from `d`. -/
def geomSleeps (b : ℚ) : ℚ → ℕ → List ℚ
  | _, 0 => []
  | _, 1 => []
  | d, n + 2 => d :: geomSleeps b (d * b) (n + 1)

/-! ### `pipeline/profile_ranker.py` — threshold computation -/

/-- Mirrors `Thresholds.DynamicConfig` (`config/settings.py`), defaults
included. -/
structure DynamicConfig where
  must_read_percentile : ℚ := 95
  consider_percentile : ℚ := 70
  min_must_read : ℚ := 0.60
  min_consider : ℚ := 0.40
  deriving Repr

/-- Mirrors `Thresholds` (`config/settings.py`): the only validator restricts
`mode` to `fixed`/`dynamic`; the numeric fields are unconstrained. -/
structure ThresholdsConfig where
  mode : String := "fixed"
  must_read : ℚ := 0.65
  consider : ℚ := 0.45
  dynamic : DynamicConfig := {}
  deriving Repr

/-- Mirrors the `ComputedThresholds` dataclass. -/
structure ComputedThresholds where
  must_read : ℚ
  consider : ℚ
  mode : String
  deriving DecidableEq, Repr

/-- Mirrors `np.percentile(a, q)` with the default linear interpolation:
sort ascending, take the virtual index `(n-1) * q/100`, and interpolate
between its floor and the next element. -/
def percentile (xs : List ℚ) (q : ℚ) : ℚ :=
  let sorted := xs.insertionSort (· ≤ ·)
  let n := sorted.length
  if n = 0 then 0
  else
    let pos : ℚ := ((n : ℚ) - 1) * q / 100
    let i : ℕ := ⌊pos⌋₊
    let lo := sorted.getD i 0
    let hi := sorted.getD (i + 1) lo
    lo + (pos - (i : ℚ)) * (hi - lo)

/-- Mirrors `ProfileRanker._compute_thresholds(scores)` under the given
thresholds configuration. -/
def _compute_thresholds (cfg : ThresholdsConfig) (scores : List ℚ) : ComputedThresholds :=
  if cfg.mode = "fixed" then
    { must_read := cfg.must_read, consider := cfg.consider, mode := "fixed" }
  else if scores.length < 2 then
    { must_read := cfg.must_read, consider := cfg.consider, mode := "fixed" }
  else
    let d := cfg.dynamic
    let mr0 := max (percentile scores d.must_read_percentile) d.min_must_read
    let co := max (percentile scores d.consider_percentile) d.min_consider
    let mr := if mr0 ≤ co then co + 0.01 else mr0
    { must_read := mr, consider := co, mode := "dynamic" }

/-! ### `pipeline/score.py` — venue-quality sub-score and ranking

`math.log` forces `ℝ` here, so these definitions are noncomputable; witnesses
evaluate them with `simp`/`norm_num` instead of kernel reduction. -/

/-- One value of `WorkRanker._whitelist`: the per-ISSN journal record
(`is_cn` is `"(CN)" in category`; `impact_factor` is `None` for `NA`/empty). -/
structure WhitelistEntry where
  title : String
  category : String
  impact_factor : Option ℝ
  is_cn : Bool

/-- The whitelist dict, as an association list keyed by ISSN. -/
abbrev Whitelist := List (String × WhitelistEntry)

/-- The log-normalized impact-factor score `min(log(IF + 1) / log(25), 1.0)`. -/
noncomputable def logNormScore (raw : ℝ) : ℝ :=
  min (Real.log (raw + 1) / Real.log 25) 1

/-- The `for issn in issns` loop body of `_compute_impact_factor_score`:
skip falsy or unknown ISSNs; a `(CN)` entry returns `(0.7, None, True)`; an
entry with a numeric impact factor returns the log-normalized score; an entry
with neither moves on to the next ISSN. -/
noncomputable def ifScoreLoop (wl : Whitelist) : List String → ℝ × Option ℝ × Bool
  | [] => (0.3, none, false)
  | issn :: rest =>
    match wl.lookup issn with
    | none => ifScoreLoop wl rest
    | some entry =>
      if issn = "" then ifScoreLoop wl rest
      else if entry.is_cn then (0.7, none, true)
      else
        match entry.impact_factor with
        | some raw => (logNormScore raw, some raw, false)
        | none => ifScoreLoop wl rest

/-- Mirrors `WorkRanker._compute_impact_factor_score(candidate)`:
`(if_score, raw_if, is_chinese_core)`. -/
noncomputable def _compute_impact_factor_score (wl : Whitelist) (c : CandidateWork) :
    ℝ × Option ℝ × Bool :=
  if c.source = "arxiv" then (0.6, none, false)
  else ifScoreLoop wl c.issns

/-- Clipping to the unit interval, `np.clip(x, 0.0, 1.0)`. -/
noncomputable def clip01 (x : ℝ) : ℝ := min (max x 0) 1

/-- Modelled from the spec: `FaissIndex.search` (module
`zotwatch/infrastructure/embedding`, not present under `src/`) queried with
`top_k=1`.  Per the spec the similarity it yields for scoring is the inner
product on L2-normalized vectors clipped to `[0, 1]`; each query vector is
represented by its raw inner product with its nearest profile vector, and the
result row is that value clipped. -/
noncomputable def faissSearchTop1 (rawInner : List ℝ) : List (List ℝ) :=
  rawInner.map (fun x => [clip01 x])

/-- A `RankedWork` as built by `WorkRanker.rank` (`ℝ`-valued scores). -/
structure ScoredWork where
  work : CandidateWork
  score : ℝ
  similarity : ℝ
  impact_factor_score : ℝ
  impact_factor : Option ℝ
  is_chinese_core : Bool
  label : String

/-- The per-candidate body of the scoring loop in `WorkRanker.rank`. -/
noncomputable def scoreOne (wl : Whitelist) (must_read consider : ℝ)
    (c : CandidateWork) (distance : List ℝ) : ScoredWork :=
  let similarity : ℝ := match distance with
    | d :: _ => d
    | [] => 0
  let ifr := _compute_impact_factor_score wl c
  let score := 0.8 * similarity + 0.2 * ifr.1
  let label := if score ≥ must_read then "must_read"
    else if score ≥ consider then "consider"
    else "ignore"
  { work := c, score := score, similarity := similarity, impact_factor_score := ifr.1,
    impact_factor := ifr.2.1, is_chinese_core := ifr.2.2, label := label }

/-- Mirrors `WorkRanker.rank(candidates)`: empty guard, batched top-1 index
search (spec-modelled, see `faissSearchTop1`) on the given raw inner products,
per-candidate scoring, and the final stable sort by descending score. -/
noncomputable def WorkRanker.rank (wl : Whitelist) (must_read consider : ℝ)
    (candidates : List CandidateWork) (rawInner : List ℝ) : List ScoredWork :=
  if candidates = [] then []
  else
    let distances := faissSearchTop1 rawInner
    let ranked := (candidates.zip distances).map
      (fun p => scoreOne wl must_read consider p.1 p.2)
    ranked.insertionSort (fun a b => b.score ≤ a.score)

/-! ### Concrete fixtures used by witnesses and counterexamples -/

/-- A journal-source ranked work, published at epoch second 259300. -/
def wCross : RankedWork :=
  { source := "crossref", identifier := "w7", title := "t", abstract := some "a",
    url := "u", published := some 259300, score := 0, similarity := 0, label := "consider" }

/-- A preprint ranked work published at `p`. -/
def preprintAt (i : ℕ) (p : ℤ) : RankedWork :=
  { source := "arxiv", identifier := toString i, title := "t", abstract := some "a",
    url := "u", published := some p, score := 0, similarity := 0, label := "consider" }

/-- A journal ranked work published at `p`. -/
def journalAt (i : ℕ) (p : ℤ) : RankedWork :=
  { source := "crossref", identifier := toString i, title := "t", abstract := some "a",
    url := "u", published := some p, score := 0, similarity := 0, label := "consider" }

/-- The claim's example batch: 6 preprints then 4 journal works (already in
score order). -/
def exampleBatch : List RankedWork :=
  [preprintAt 0 0, preprintAt 1 0, preprintAt 2 0, preprintAt 3 0, preprintAt 4 0,
   preprintAt 5 0, journalAt 6 0, journalAt 7 0, journalAt 8 0, journalAt 9 0]

/-- A fixed-mode configuration whose cutoffs are inverted. -/
def invertedCfg : ThresholdsConfig :=
  { mode := "fixed", must_read := 0.4, consider := 0.5, dynamic := {} }

/-- The default configuration switched to dynamic mode. -/
def dynCfg : ThresholdsConfig := { mode := "dynamic" }

/-- A 429 response suggesting a 10 second delay. -/
def o429 : Outcome Unit := .httpError (some { status := 429, retryAfter := some 10 })

/-- Attempt outcomes for the C5 witness: a rate limit with `Retry-After: 10`,
then timeouts forever. -/
def rateLimitedRun (i : ℕ) : Outcome Unit :=
  if i = 0 then o429 else .connError "Timeout"

/-- Attempt outcomes for the C6 witness: one timeout, then an HTTP 404. -/
def notFoundRun (i : ℕ) : Outcome Unit :=
  if i = 0 then .connError "Timeout" else .httpError (some { status := 404, retryAfter := none })

/-- An arXiv candidate. -/
def cArxiv : CandidateWork :=
  { source := "arxiv", identifier := "a1", title := "t", abstract := some "a",
    url := "u", published := some 0, issns := [] }

/-- A journal candidate carrying one ISSN. -/
def cJournal : CandidateWork :=
  { source := "crossref", identifier := "j1", title := "t", abstract := some "a",
    url := "u", published := some 0, issns := ["1234-5678"] }

/-- A whitelist marking that ISSN as a regional (CN) core journal. -/
noncomputable def wlCN : Whitelist :=
  [("1234-5678", { title := "J", category := "Area (CN)", impact_factor := none, is_cn := true })]

/-- A whitelist giving that ISSN a numeric impact factor of 5. -/
noncomputable def wlIF : Whitelist :=
  [("1234-5678", { title := "J", category := "Area", impact_factor := some 5, is_cn := false })]

/-! ### Helper lemmas -/

/-- Splitting a list by a predicate preserves total length. -/
theorem length_filter_add_length_filter_not {α : Type} (p : α → Bool) (l : List α) :
    (l.filter p).length + (l.filter (fun a => ! p a)).length = l.length := by
  induction l with
  | nil => simp
  | cons a l ih =>
    by_cases h : p a = true <;> simp [List.filter_cons, h, ← ih] <;> omega

/-- `utc_today_start` lies at most one day before `now` and not after it. -/
theorem utc_today_start_bounds (now : ℤ) :
    utc_today_start now ≤ now ∧ now < utc_today_start now + secondsPerDay := by
  have hmod := Int.emod_nonneg now (by norm_num [secondsPerDay] : secondsPerDay ≠ 0)
  have hlt := Int.emod_lt_of_pos now (by norm_num [secondsPerDay] : 0 < secondsPerDay)
  have hdiv := Int.ediv_add_emod now secondsPerDay
  unfold utc_today_start
  omega

/-- A successful association-list lookup comes from an element of the list. -/
theorem lookup_mem {β : Type} {wl : List (String × β)} {k : String} {e : β}
    (h : wl.lookup k = some e) : (k, e) ∈ wl := by
  induction wl with
  | nil => simp [List.lookup] at h
  | cons p wl ih =>
    rw [List.lookup] at h
    by_cases hk : (k == p.1) = true
    · simp only [hk] at h
      have hke := (beq_iff_eq (a := k) (b := p.1)).mp hk
      cases p
      cases h
      simp_all
    · simp only [Bool.not_eq_true] at hk
      simp only [hk] at h
      exact List.mem_cons_of_mem _ (ih h)

/-- The preprint loop only ever emits elements of its input, in order. -/
theorem limitPreprintsGo_sublist (cap : ℚ) :
    ∀ (l : List RankedWork) (flen pc : ℕ), (limitPreprintsGo cap l flen pc).Sublist l := by
  intro l
  induction l with
  | nil => intro _ _; simp [limitPreprintsGo]
  | cons w rest ih =>
    intro flen pc
    rw [limitPreprintsGo]
    by_cases hp : isPreprint w = true
    · rw [if_pos hp]
      by_cases hr : ((pc : ℚ) + 1) / ((flen : ℚ) + 1) > cap
      · rw [if_pos hr]
        exact (ih flen pc).cons w
      · rw [if_neg hr]
        exact (ih (flen + 1) (pc + 1)).cons₂ w
    · rw [if_neg hp]
      exact (ih (flen + 1) pc).cons₂ w

/-- The running-state invariant of the preprint cap loop: if the preprints so
far fit under the cap, they still do after processing the rest. -/
theorem limitPreprintsGo_ratio (cap : ℚ) (hcap : 0 < cap) :
    ∀ (l : List RankedWork) (flen pc : ℕ), (pc : ℚ) ≤ cap * flen →
      (pc : ℚ) + countPreprints (limitPreprintsGo cap l flen pc) ≤
        cap * ((flen : ℚ) + (limitPreprintsGo cap l flen pc).length) := by
  intro l
  induction l with
  | nil => intro flen pc h; simpa [limitPreprintsGo, countPreprints] using h
  | cons w rest ih =>
    intro flen pc h
    rw [limitPreprintsGo]
    by_cases hp : isPreprint w = true
    · rw [if_pos hp]
      by_cases hr : ((pc : ℚ) + 1) / ((flen : ℚ) + 1) > cap
      · rw [if_pos hr]
        exact ih flen pc h
      · rw [if_neg hr]
        have hflen : (0 : ℚ) < (flen : ℚ) + 1 := by positivity
        have hstep : ((pc : ℚ) + 1) ≤ cap * ((flen : ℚ) + 1) := by
          have := (div_le_iff₀ hflen).mp (not_lt.mp hr)
          linarith
        have := ih (flen + 1) (pc + 1) (by push_cast; linarith)
        simp only [countPreprints, List.filter_cons, hp, if_pos, List.length_cons] at *
        push_cast at this ⊢
        linarith
    · rw [if_neg hp]
      have := ih (flen + 1) pc (by push_cast; nlinarith)
      simp only [countPreprints, List.filter_cons, hp, List.length_cons] at *
      push_cast at this ⊢
      linarith

/-! ### Claim C10 -/

/-- C10: each of `filter_recent`, `limit_preprints` and
`filter_without_abstract` returns an order-preserving subsequence of its
input — every output element comes from the input, relative order is kept,
no element is duplicated, and elements are passed through unmodified
(`List.Sublist` captures all four). -/
theorem C10_filters_are_sublists :
    (∀ (ranked : List RankedWork) (days now : ℤ), (filter_recent ranked days now).Sublist ranked)
  ∧ (∀ (ranked : List RankedWork) (cap : ℚ), (limit_preprints ranked cap).Sublist ranked)
  ∧ (∀ cands : List CandidateWork, (filter_without_abstract cands).1.Sublist cands) := by
  refine ⟨fun ranked days now => ?_, fun ranked cap => ?_, fun cands => ?_⟩
  · rw [filter_recent]
    split_ifs
    · exact List.Sublist.refl ranked
    · exact List.filter_sublist ranked
  · rw [limit_preprints]
    split_ifs
    · exact List.Sublist.refl ranked
    · exact limitPreprintsGo_sublist cap ranked 0 0
  · exact List.filter_sublist cands

/-! ### Claim C9 -/

/-- C9: `cleanup_expired` deletes exactly the rows whose expiry column is
non-null and already elapsed (`expires_at <= now`), keeps every row with a
null or future expiry unchanged and in order, and returns the number of
removed rows. -/
theorem C9_cleanup_expired_exact (rows : List CacheRow) (now : ℤ) :
    (cleanup_expired rows now).1.Sublist rows
  ∧ (∀ r : CacheRow, r ∈ (cleanup_expired rows now).1 ↔
      r ∈ rows ∧ (r.expires_at = none ∨ ∀ t, r.expires_at = some t → now < t))
  ∧ (cleanup_expired rows now).2 = (rows.filter (sqlExpired now)).length := by
  refine ⟨List.filter_sublist rows, fun r => ?_, ?_⟩
  · rw [cleanup_expired]
    rw [List.mem_filter]
    constructor
    · rintro ⟨hmem, hb⟩
      refine ⟨hmem, ?_⟩
      cases h : r.expires_at with
      | none => exact Or.inl rfl
      | some t =>
        refine Or.inr fun t' ht' => ?_
        cases ht'
        simp [sqlExpired, h] at hb
        omega
    · rintro ⟨hmem, hfut⟩
      refine ⟨hmem, ?_⟩
      cases h : r.expires_at with
      | none => simp [sqlExpired, h]
      | some t =>
        rcases hfut with hnone | hfut
        · rw [h] at hnone; cases hnone
        · have := hfut t h
          simp [sqlExpired, h]
          omega
  · have hsplit := length_filter_add_length_filter_not (sqlExpired now) rows
    rw [cleanup_expired]
    omega

/-! ### Claim C3 -/

/-- C3 fails as stated: with `max_ratio = 0` (a configurable value) the guard
`if not ranked or max_ratio <= 0` returns the input unchanged, so a single
preprint survives with preprint fraction `1 > 0`. -/
theorem C3_counterexample :
    ¬ ((countPreprints (limit_preprints [preprintAt 0 0] 0) : ℚ) ≤
        0 * (limit_preprints [preprintAt 0 0] 0).length) := by
  have h1 : limit_preprints [preprintAt 0 0] 0 = [preprintAt 0 0] := by
    rw [limit_preprints, if_pos (Or.inr le_rfl)]
  rw [h1]
  have h2 : countPreprints [preprintAt 0 0] = 1 := rfl
  rw [h2]
  norm_num

/-- C3 (amended): for every input list and every `max_ratio > 0`,
`limit_preprints` returns a list whose preprint count is at most `max_ratio`
times its length (so its preprint fraction never exceeds `max_ratio`); with
`max_ratio <= 0` the function returns the input unchanged. -/
theorem C3_preprint_cap (ranked : List RankedWork) (cap : ℚ) (hcap : 0 < cap) :
    (countPreprints (limit_preprints ranked cap) : ℚ) ≤
      cap * (limit_preprints ranked cap).length := by
  rw [limit_preprints]
  by_cases hg : ranked = [] ∨ cap ≤ 0
  · rw [if_pos hg]
    rcases hg with hg | hg
    · subst hg; simp [countPreprints]
    · exact absurd hg (not_le.mpr hcap)
  · rw [if_neg hg]
    have h := limitPreprintsGo_ratio cap hcap ranked 0 0 (by norm_num)
    push_cast at h ⊢
    linarith

/-- C3 witness: the claim's example — 6 preprints then 4 journal papers with
`max_ratio = 0.3` — satisfies the amended bound. -/
theorem C3_preprint_cap_witness :
    (0 : ℚ) < 3 / 10 ∧
    (countPreprints (limit_preprints exampleBatch (3 / 10)) : ℚ) ≤
      (3 / 10) * (limit_preprints exampleBatch (3 / 10)).length :=
  ⟨by norm_num, C3_preprint_cap exampleBatch (3 / 10) (by norm_num)⟩

/-! ### Claim C7 -/

/-- C7 fails as stated: the code's cutoff is `utc_today_start() - days`, not
`now - days`.  At `now = 907200` (day 10, 12:00 UTC) a work published at
`259300` is strictly earlier than `now - 7` days (`302400`) — so the claim
says it is removed — yet `filter_recent` keeps it, because it is not earlier
than the actual cutoff `259200`. -/
theorem C7_counterexample :
    wCross.published = some 259300 ∧ (259300 : ℤ) < 907200 - 7 * 86400 ∧
    filter_recent [wCross] 7 907200 = [wCross] := by
  refine ⟨rfl, by norm_num, ?_⟩
  rfl

/-- C7 (amended): with the cutoff at the start (00:00 UTC) of the current day
minus `days` days, `filter_recent` removes exactly the works whose publication
instant is missing or earlier than that cutoff and keeps all others; in
particular, for `days = 7`, a work published 10 days ago is removed and one
published 2 days ago is kept. -/
theorem C7_filter_recent_cutoff :
    (∀ (ranked : List RankedWork) (days now : ℤ), 0 < days →
      ∀ w, w ∈ filter_recent ranked days now ↔
        w ∈ ranked ∧ ∃ p, w.published = some p ∧ utc_today_start now - secondsPerDay * days ≤ p)
  ∧ (∀ (now : ℤ) (wOld wRec : RankedWork),
      wOld.published = some (now - 10 * secondsPerDay) →
      wRec.published = some (now - 2 * secondsPerDay) →
      filter_recent [wOld, wRec] 7 now = [wRec]) := by
  constructor
  · intro ranked days now hdays w
    rw [filter_recent, if_neg (not_le.mpr hdays), List.mem_filter]
    refine and_congr_right fun _ => ?_
    cases h : w.published <;> simp [keepRecent, h]
  · intro now wOld wRec hO hR
    obtain ⟨h1, h2⟩ := utc_today_start_bounds now
    rw [filter_recent, if_neg (by norm_num : ¬ (7 : ℤ) ≤ 0)]
    have hOld : keepRecent (utc_today_start now - secondsPerDay * 7) wOld = false := by
      simp only [keepRecent, hO, decide_eq_false_iff_not, not_le]
      simp only [secondsPerDay] at *
      omega
    have hRec : keepRecent (utc_today_start now - secondsPerDay * 7) wRec = true := by
      simp only [keepRecent, hR, decide_eq_true_eq]
      simp only [secondsPerDay] at *
      omega
    simp [List.filter_cons, hOld, hRec]

/-- C7 witness: the amended characterization and the 10-day/2-day example at
the concrete instant `now = 907200`. -/
theorem C7_filter_recent_witness :
    ((wCross ∈ filter_recent [wCross] 7 907200 ↔
      wCross ∈ [wCross] ∧ ∃ p, wCross.published = some p ∧
        utc_today_start 907200 - secondsPerDay * 7 ≤ p))
  ∧ filter_recent [journalAt 10 43200, journalAt 11 734400] 7 907200 = [journalAt 11 734400] :=
  ⟨C7_filter_recent_cutoff.1 [wCross] 7 907200 (by norm_num) wCross,
   C7_filter_recent_cutoff.2 907200 (journalAt 10 43200) (journalAt 11 734400) rfl rfl⟩

/-! ### Claim C1 -/

/-- C1 fails as stated: in fixed mode the configured values are returned
verbatim — `Thresholds` has no validator relating them — so a configuration
with `must_read = 0.4 <= consider = 0.5` yields thresholds violating
`must_read > consider`. -/
theorem C1_counterexample :
    ¬ ((_compute_thresholds invertedCfg [0.7, 0.2]).consider <
        (_compute_thresholds invertedCfg [0.7, 0.2]).must_read) := by
  have h : _compute_thresholds invertedCfg [0.7, 0.2] =
      { must_read := 0.4, consider := 0.5, mode := "fixed" } := rfl
  rw [h]
  norm_num

/-- C1 (amended): whenever `_compute_thresholds` takes the dynamic path (mode
`dynamic` and at least 2 scores) the result satisfies
`must_read > consider` unconditionally, the 0.01 bump enforcing it when the
percentile-derived value would not; on the fixed path (fixed mode, or the
small-batch fallback) the configured values are returned, so the invariant
holds exactly when the configuration itself satisfies
`must_read > consider` — as the defaults (0.65 / 0.45) do. -/
theorem C1_threshold_separation (cfg : ThresholdsConfig) (scores : List ℚ) :
    ((_compute_thresholds cfg scores).mode = "dynamic" →
      (_compute_thresholds cfg scores).consider < (_compute_thresholds cfg scores).must_read)
  ∧ (cfg.consider < cfg.must_read →
      (_compute_thresholds cfg scores).consider < (_compute_thresholds cfg scores).must_read) := by
  simp only [_compute_thresholds]
  split_ifs with hm hl hb
  · exact ⟨fun h => by simp at h, fun h => h⟩
  · exact ⟨fun h => by simp at h, fun h => h⟩
  · exact ⟨fun _ => lt_add_of_pos_right _ (by norm_num), fun _ => lt_add_of_pos_right _ (by norm_num)⟩
  · exact ⟨fun _ => not_le.mp hb, fun _ => not_le.mp hb⟩

/-- C1 witness: strict separation holds on the dynamic path for the batch
`[0, 1]` under the default dynamic configuration, and on the fixed path under
the default configuration (0.65 > 0.45). -/
theorem C1_threshold_separation_witness :
    ((_compute_thresholds dynCfg [0, 1]).consider < (_compute_thresholds dynCfg [0, 1]).must_read)
  ∧ ((_compute_thresholds ({} : ThresholdsConfig) [0.5]).consider <
      (_compute_thresholds ({} : ThresholdsConfig) [0.5]).must_read) :=
  ⟨(C1_threshold_separation dynCfg [0, 1]).1 rfl,
   (C1_threshold_separation ({} : ThresholdsConfig) [0.5]).2 (by norm_num)⟩

/-! ### Retry-loop lemmas -/

/-- A transient outcome never hits the `success` or non-retryable branches, so
one loop iteration records the failure, applies the 429 override, and either
sleeps and recurses or (on the last attempt) falls through to the raise. -/
theorem runRetryGo_transient_step {T : Type} (b : ℚ) (outcomes : ℕ → Outcome T)
    (draws : ℕ → ℚ) (fuel attempt : ℕ) (delay : ℚ) (ls : Option ℕ) (le' : Option String)
    (h : (outcomes attempt).isTransientRetryable = true) :
    runRetryGo b outcomes draws (fuel + 1) attempt delay ls le' =
      if fuel = 0 then
        runRetryGo b outcomes draws fuel (attempt + 1) (stepDelay (outcomes attempt) delay)
          (stepState (outcomes attempt) ls) (some (stepExc (outcomes attempt)))
      else
        ((runRetryGo b outcomes draws fuel (attempt + 1)
            (stepDelay (outcomes attempt) delay * b)
            (stepState (outcomes attempt) ls) (some (stepExc (outcomes attempt)))).1,
          _add_jitter (stepDelay (outcomes attempt) delay) (draws attempt) ::
            (runRetryGo b outcomes draws fuel (attempt + 1)
              (stepDelay (outcomes attempt) delay * b)
              (stepState (outcomes attempt) ls) (some (stepExc (outcomes attempt)))).2) := by
  cases ho : outcomes attempt with
  | success v =>
    rw [ho] at h
    simp [Outcome.isTransientRetryable] at h
  | httpError resp =>
    cases resp with
    | none =>
      simp [runRetryGo, ho, stepDelay, stepState, stepExc]
    | some r =>
      have hc : r.status ∈ RETRYABLE_STATUS_CODES := by
        rw [ho] at h
        simpa [Outcome.isTransientRetryable] using h
      simp [runRetryGo, ho, stepDelay, stepState, stepExc, hc]
  | connError n =>
    simp [runRetryGo, ho, stepDelay, stepState, stepExc]

/-- Without a suggested delay, the 429 override leaves the delay unchanged. -/
theorem stepDelay_noSuggested {T : Type} {o : Outcome T}
    (h : o.noSuggestedDelay = true) (delay : ℚ) : stepDelay o delay = delay := by
  cases o with
  | success v => rfl
  | connError n => rfl
  | httpError resp =>
    cases resp with
    | none => rfl
    | some r =>
      simp only [Outcome.noSuggestedDelay, Bool.not_eq_true', Bool.and_eq_false_iff] at h
      show (if r.status = 429 then _get_retry_after (some r) delay else delay) = delay
      by_cases h429 : r.status = 429
      · rw [if_pos h429]
        rcases h with h | h
        · exact absurd (by simpa using h429) (by simpa using h)
        · cases hra : r.retryAfter with
          | none => simp [_get_retry_after, hra]
          | some q => rw [hra] at h; simp at h
      · rw [if_neg h429]

/-- Recording the same failure twice leaves `last_status_code` unchanged. -/
theorem stepState_idem {T : Type} (o : Outcome T) (ls : Option ℕ) :
    stepState o (stepState o ls) = stepState o ls := by
  cases o <;> rfl

/-- A jitter-free run whose next `fuel` attempts all fail transiently with no
`Retry-After` override sleeps the geometric sequence from the current delay
and ends in the aggregated error after all attempts. -/
theorem runRetryGo_exhaust {T : Type} (b : ℚ) (outcomes : ℕ → Outcome T) (draws : ℕ → ℚ)
    (hdraw : ∀ i, draws i = 0) :
    ∀ (fuel attempt : ℕ) (delay : ℚ) (ls : Option ℕ) (le' : Option String),
      (∀ j, j < fuel → (outcomes (attempt + j)).isTransientRetryable = true ∧
        (outcomes (attempt + j)).noSuggestedDelay = true) →
      (runRetryGo b outcomes draws fuel attempt delay ls le').2 = geomSleeps b delay fuel ∧
      ∃ dt, (runRetryGo b outcomes draws fuel attempt delay ls le').1 =
        .exhausted (attempt + fuel) dt := by
  intro fuel
  induction fuel with
  | zero =>
    intro attempt delay ls le' _
    exact ⟨rfl, ⟨mkDetail ls le', rfl⟩⟩
  | succ m ih =>
    intro attempt delay ls le' hall
    have h0 := hall 0 (Nat.succ_pos m)
    rw [Nat.add_zero] at h0
    have hsd := stepDelay_noSuggested h0.2 delay
    rw [runRetryGo_transient_step b outcomes draws m attempt delay ls le' h0.1, hsd]
    cases m with
    | zero =>
      rw [if_pos rfl]
      exact ⟨rfl, ⟨_, rfl⟩⟩
    | succ k =>
      rw [if_neg (Nat.succ_ne_zero k)]
      have ihr := ih (attempt + 1) (delay * b) (stepState (outcomes attempt) ls)
        (some (stepExc (outcomes attempt)))
        (fun j hj => by
          have := hall (j + 1) (by omega)
          rwa [show attempt + (j + 1) = attempt + 1 + j by omega] at this)
      constructor
      · show _add_jitter delay (draws attempt) :: _ = _
        rw [hdraw attempt, ihr.1]
        have hj : _add_jitter delay 0 = delay := by rw [_add_jitter]; ring
        rw [hj]
        rfl
      · obtain ⟨dt, hdt⟩ := ihr.2
        refine ⟨dt, ?_⟩
        show (runRetryGo b outcomes draws (k + 1) (attempt + 1) (delay * b) _ _).1 = _
        rw [hdt, show attempt + 1 + (k + 1) = attempt + (k + 1 + 1) by omega]

/-- When every attempt fails with the same transient outcome, the aggregated
error reports all attempts and the detail derived from that failure. -/
theorem runRetryGo_const_result {T : Type} (b : ℚ) (o : Outcome T) (draws : ℕ → ℚ)
    (ho : o.isTransientRetryable = true) :
    ∀ (fuel attempt : ℕ) (delay : ℚ) (ls : Option ℕ) (le' : Option String), 0 < fuel →
      (runRetryGo b (fun _ => o) draws fuel attempt delay ls le').1 =
        .exhausted (attempt + fuel) (mkDetail (stepState o ls) (some (stepExc o))) := by
  intro fuel
  induction fuel with
  | zero => intro _ _ _ _ h; omega
  | succ m ih =>
    intro attempt delay ls le' _
    rw [runRetryGo_transient_step b (fun _ => o) draws m attempt delay ls le' ho]
    cases m with
    | zero => rw [if_pos rfl]; rfl
    | succ k =>
      rw [if_neg (Nat.succ_ne_zero k)]
      have := ih (attempt + 1) (stepDelay o delay * b) (stepState o ls)
        (some (stepExc o)) (Nat.succ_pos k)
      rw [stepState_idem] at this
      show (runRetryGo b (fun _ => o) draws (k + 1) (attempt + 1) _ _ _).1 = _
      rw [this, show attempt + 1 + (k + 1) = attempt + (k + 1 + 1) by omega]

/-- If the first `k` attempts fail transiently and attempt `k` fails with a
non-retryable HTTP status, the wrapper raises there: no sleep for attempt `k`
and no later attempt. -/
theorem runRetryGo_nonretryable {T : Type} (b : ℚ) (outcomes : ℕ → Outcome T)
    (draws : ℕ → ℚ) (r : HttpResponse) (hnr : r.status ∉ RETRYABLE_STATUS_CODES) :
    ∀ (k fuel attempt : ℕ) (delay : ℚ) (ls : Option ℕ) (le' : Option String),
      k < fuel →
      (∀ j, j < k → (outcomes (attempt + j)).isTransientRetryable = true) →
      outcomes (attempt + k) = .httpError (some r) →
      (runRetryGo b outcomes draws fuel attempt delay ls le').1 =
        .nonRetryable r.status (attempt + k) ∧
      (runRetryGo b outcomes draws fuel attempt delay ls le').2.length = k := by
  intro k
  induction k with
  | zero =>
    intro fuel attempt delay ls le' hk _ ho
    obtain ⟨f, rfl⟩ : ∃ f, fuel = f + 1 := ⟨fuel - 1, by omega⟩
    rw [Nat.add_zero] at ho
    simp [runRetryGo, ho, hnr]
  | succ k ih =>
    intro fuel attempt delay ls le' hk hpre ho
    obtain ⟨f, rfl⟩ : ∃ f, fuel = f + 1 := ⟨fuel - 1, by omega⟩
    have h0 := hpre 0 (Nat.succ_pos k)
    rw [Nat.add_zero] at h0
    rw [runRetryGo_transient_step b outcomes draws f attempt delay ls le' h0]
    rw [if_neg (by omega : f ≠ 0)]
    have hrec := ih f (attempt + 1) (stepDelay (outcomes attempt) delay * b)
      (stepState (outcomes attempt) ls) (some (stepExc (outcomes attempt))) (by omega)
      (fun j hj => by
        have := hpre (j + 1) (by omega)
        rwa [show attempt + (j + 1) = attempt + 1 + j by omega] at this)
      (by rwa [show attempt + 1 + k = attempt + (k + 1) by omega])
    constructor
    · show (runRetryGo b outcomes draws f (attempt + 1) _ _ _).1 = _
      rw [hrec.1, show attempt + 1 + k = attempt + (k + 1) by omega]
    · show (_ :: (runRetryGo b outcomes draws f (attempt + 1) _ _ _).2).length = k + 1
      rw [List.length_cons, hrec.2]

/-! ### Claim C4 -/

/-- C4 fails as stated: a 429 response carrying `Retry-After: 10` is a
transient, retryable failure, yet an operation failing with it on every
attempt sleeps [10, 10] (the header is honored on each attempt), not
[1.0, 2.0]. -/
theorem C4_counterexample :
    o429.isTransientRetryable = true ∧
    (with_retry 3 2 1 (fun _ => o429) (fun _ => 0)).2 ≠ [1, 2] := by
  refine ⟨rfl, ?_⟩
  have t1 : ∀ (delay : ℚ) (ls : Option ℕ) (le' : Option String),
      runRetryGo 2 (fun _ => o429) (fun _ => 0) 1 2 delay ls le' =
        (.exhausted 3 (.http 429), []) := by
    intro delay ls le'
    rw [show (1 : ℕ) = 0 + 1 from rfl,
      runRetryGo_transient_step 2 (fun _ => o429) (fun _ => 0) 0 2 delay ls le' rfl,
      if_pos rfl]
    rfl
  have t2 : ∀ (delay : ℚ) (ls : Option ℕ) (le' : Option String),
      runRetryGo 2 (fun _ => o429) (fun _ => 0) 2 1 delay ls le' =
        (.exhausted 3 (.http 429), [_add_jitter 10 0]) := by
    intro delay ls le'
    rw [show (2 : ℕ) = 1 + 1 from rfl,
      runRetryGo_transient_step 2 (fun _ => o429) (fun _ => 0) 1 1 delay ls le' rfl,
      if_neg one_ne_zero, t1]
    rfl
  have t3 : with_retry 3 2 1 (fun _ => o429) (fun _ => 0) =
      (.exhausted 3 (.http 429), [_add_jitter 10 0, _add_jitter 10 0]) := by
    rw [with_retry, show (3 : ℕ) = 2 + 1 from rfl,
      runRetryGo_transient_step 2 (fun _ => o429) (fun _ => 0) 2 0 1 none none rfl,
      if_neg (two_ne_zero), t2]
    rfl
  rw [t3]
  intro hc
  rw [_add_jitter] at hc
  simp only [List.cons.injEq] at hc
  norm_num at hc

/-- C4 (amended): for an operation failing on every attempt with the same
transient retryable error carrying no `Retry-After` value, the configuration
`max_attempts=3, initial_delay=1.0, backoff_factor=2.0, jitter=0` produces
exactly the sleeps [1.0, 2.0] between the 3 attempts, then one aggregated
`NetworkError` naming the attempt count and that failure class. -/
theorem C4_retry_exhaustion {T : Type} (o : Outcome T)
    (ht : o.isTransientRetryable = true) (hn : o.noSuggestedDelay = true) :
    (with_retry 3 2 1 (fun _ => o) (fun _ => 0)).1 = .exhausted 3 (detailFor o) ∧
    (with_retry 3 2 1 (fun _ => o) (fun _ => 0)).2 = [1, 2] := by
  constructor
  · have h := runRetryGo_const_result 2 o (fun _ => 0) ht 3 0 1 none none (by norm_num)
    rw [with_retry, h, detailFor, Nat.zero_add]
  · have h := (runRetryGo_exhaust 2 (fun _ => o) (fun _ => 0) (fun _ => rfl) 3 0 1
      none none (fun j _ => ⟨ht, hn⟩)).1
    rw [with_retry, h]
    have g : geomSleeps 2 1 3 = [1, 1 * 2] := rfl
    rw [g]
    norm_num

/-- C4 witness: an operation that times out on all three attempts. -/
theorem C4_retry_exhaustion_witness :
    (with_retry 3 2 1 (fun _ => (Outcome.connError "Timeout" : Outcome Unit)) (fun _ => 0)).1 =
      .exhausted 3 (.excName "Timeout") ∧
    (with_retry 3 2 1 (fun _ => (Outcome.connError "Timeout" : Outcome Unit)) (fun _ => 0)).2 =
      [1, 2] := by
  have h := C4_retry_exhaustion (Outcome.connError "Timeout" : Outcome Unit) rfl rfl
  exact ⟨by rw [h.1]; rfl, h.2⟩

/-! ### Claim C5 -/

/-- C5: when the first attempt fails with a 429 carrying a numeric
`Retry-After` value `d` and the remaining attempts fail transiently without
overrides (jitter 0), the sleep before the next attempt is exactly `d` — the
computed backoff is replaced — and subsequent sleeps grow exponentially from
it: `d * b`, `d * b^2`, and so on; the run then raises the aggregated error. -/
theorem C5_retry_after_honored {T : Type} (d b init : ℚ) (m : ℕ)
    (outcomes : ℕ → Outcome T) (draws : ℕ → ℚ)
    (h0 : outcomes 0 = .httpError (some { status := 429, retryAfter := some d }))
    (hrest : ∀ i, 1 ≤ i → (outcomes i).isTransientRetryable = true ∧
      (outcomes i).noSuggestedDelay = true)
    (hdraw : ∀ i, draws i = 0) :
    (with_retry (m + 2) b init outcomes draws).2 = d :: geomSleeps b (d * b) (m + 1) ∧
    ∃ dt, (with_retry (m + 2) b init outcomes draws).1 = .exhausted (m + 2) dt := by
  have htr : (outcomes 0).isTransientRetryable = true := by rw [h0]; rfl
  have hsd : stepDelay (outcomes 0) init = d := by rw [h0]; rfl
  have hss : stepState (outcomes 0) none = some 429 := by rw [h0]; rfl
  have hse : stepExc (outcomes 0) = "HTTPError" := by rw [h0]; rfl
  have hexh := runRetryGo_exhaust b outcomes draws hdraw (m + 1) 1 (d * b)
    (stepState (outcomes 0) none) (some (stepExc (outcomes 0)))
    (fun j hj => hrest (1 + j) (by omega))
  rw [with_retry, show m + 2 = (m + 1) + 1 from rfl,
    runRetryGo_transient_step b outcomes draws (m + 1) 0 init none none htr,
    if_neg (Nat.succ_ne_zero m), hsd]
  constructor
  · show _add_jitter d (draws 0) :: _ = _
    rw [hdraw 0, show _add_jitter d 0 = d by rw [_add_jitter]; ring, hexh.1]
  · obtain ⟨dt, hdt⟩ := hexh.2
    refine ⟨dt, ?_⟩
    show (runRetryGo b outcomes draws (m + 1) 1 (d * b) _ _).1 = _
    rw [hdt, Nat.add_comm 1 (m + 1)]

/-- C5 witness: `max_attempts = 4`, `Retry-After: 10`, backoff factor 2 —
sleeps are 10, then geometric growth 20, 40. -/
theorem C5_retry_after_witness :
    (with_retry 4 2 1 rateLimitedRun (fun _ => 0)).2 = 10 :: geomSleeps 2 (10 * 2) 3 ∧
    ∃ dt, (with_retry 4 2 1 rateLimitedRun (fun _ => 0)).1 = .exhausted 4 dt :=
  C5_retry_after_honored 10 2 1 2 rateLimitedRun (fun _ => 0) rfl
    (fun i hi => by
      rw [rateLimitedRun, if_neg (by omega : ¬ i = 0)]
      exact ⟨rfl, rfl⟩)
    (fun _ => rfl)

/-! ### Claim C6 -/

/-- C6: if the first `k` attempts fail transiently and attempt `k` fails with
an HTTP status outside {429, 500, 502, 503, 504}, the wrapper raises
immediately during attempt `k`: the sleep list contains only the `k` earlier
sleeps (none for this attempt) and no further attempt is made. -/
theorem C6_nonretryable_immediate {T : Type} (n : ℕ) (b init : ℚ)
    (outcomes : ℕ → Outcome T) (draws : ℕ → ℚ) (k : ℕ) (r : HttpResponse)
    (hk : k < n)
    (hpre : ∀ j, j < k → (outcomes j).isTransientRetryable = true)
    (ho : outcomes k = .httpError (some r))
    (hnr : r.status ∉ RETRYABLE_STATUS_CODES) :
    (with_retry n b init outcomes draws).1 = .nonRetryable r.status k ∧
    (with_retry n b init outcomes draws).2.length = k := by
  have h := runRetryGo_nonretryable b outcomes draws r hnr k n 0 init none none hk
    (fun j hj => by simpa using hpre j hj) (by simpa using ho)
  simpa using h

/-- C6 witness: a timeout, then an HTTP 404 — the wrapper raises on the second
attempt after a single sleep. -/
theorem C6_nonretryable_witness :
    (with_retry 3 2 1 notFoundRun (fun _ => 0)).1 = .nonRetryable 404 1 ∧
    (with_retry 3 2 1 notFoundRun (fun _ => 0)).2.length = 1 :=
  C6_nonretryable_immediate 3 2 1 notFoundRun (fun _ => 0) 1
    { status := 404, retryAfter := none } (by norm_num)
    (fun j hj => by
      have hj0 : j = 0 := by omega
      subst hj0
      rfl)
    rfl (by decide)

/-! ### Venue-quality lemmas -/

/-- The log-normalized score is nonnegative for a nonnegative metric. -/
theorem logNormScore_nonneg {m : ℝ} (hm : 0 ≤ m) : 0 ≤ logNormScore m := by
  rw [logNormScore]
  refine le_min (div_nonneg ?_ ?_) zero_le_one
  · exact Real.log_nonneg (by linarith)
  · exact le_of_lt (Real.log_pos (by norm_num))

/-- The log-normalized score never exceeds 1. -/
theorem logNormScore_le_one (m : ℝ) : logNormScore m ≤ 1 := min_le_right _ _

/-- Every branch of the ISSN loop yields a score in the unit interval, as long
as the whitelist carries only nonnegative impact factors. -/
theorem ifScoreLoop_bounds (wl : Whitelist)
    (hwl : ∀ s e, (s, e) ∈ wl → ∀ m, e.impact_factor = some m → (0 : ℝ) ≤ m) :
    ∀ issns : List String,
      0 ≤ (ifScoreLoop wl issns).1 ∧ (ifScoreLoop wl issns).1 ≤ 1 := by
  intro issns
  induction issns with
  | nil => norm_num [ifScoreLoop]
  | cons issn rest ih =>
    cases hlk : wl.lookup issn with
    | none => simpa [ifScoreLoop, hlk] using ih
    | some entry =>
      by_cases hemp : issn = ""
      · have hstep : ifScoreLoop wl (issn :: rest) = ifScoreLoop wl rest := by
          simp only [ifScoreLoop, hlk]
          rw [if_pos hemp]
        rw [hstep]
        exact ih
      · by_cases hcn : entry.is_cn = true
        · simp only [ifScoreLoop, hlk, if_neg hemp, if_pos hcn]
          norm_num
        · cases himp : entry.impact_factor with
          | none => simpa [ifScoreLoop, hlk, hemp, hcn, himp] using ih
          | some raw =>
            have hraw : (0 : ℝ) ≤ raw := hwl issn entry (lookup_mem hlk) raw himp
            simp only [ifScoreLoop, hlk, if_neg hemp, hcn, if_false, himp]
            exact ⟨logNormScore_nonneg hraw, logNormScore_le_one raw⟩

/-- When no ISSN is whitelisted the loop falls through to the unknown-venue
score. -/
theorem ifScoreLoop_all_none (wl : Whitelist) :
    ∀ issns : List String, (∀ issn, issn ∈ issns → wl.lookup issn = none) →
      ifScoreLoop wl issns = (0.3, none, false) := by
  intro issns
  induction issns with
  | nil => intro _; rfl
  | cons issn rest ih =>
    intro hall
    have h0 := hall issn (List.mem_cons_self issn rest)
    simp only [ifScoreLoop, h0]
    exact ih fun i hi => hall i (List.mem_cons_of_mem _ hi)

/-! ### Claim C8 -/

/-- C8: the venue-quality sub-score is bounded and monotone: arXiv candidates
get 0.6, whitelisted regional (CN) core journals 0.7, whitelisted journals
with a numeric impact factor `m` get `min(log(m+1)/log(25), 1)`, and
unrecognized venues 0.3; the log-normalized score is monotone non-decreasing
in the metric, and — whenever the whitelist holds only nonnegative metrics —
every produced sub-score lies in [0, 1]. -/
theorem C8_venue_quality :
    (∀ m1 m2 : ℝ, 0 ≤ m1 → m1 ≤ m2 → logNormScore m1 ≤ logNormScore m2)
  ∧ (∀ (wl : Whitelist) (c : CandidateWork),
      (∀ s e, (s, e) ∈ wl → ∀ m, e.impact_factor = some m → (0 : ℝ) ≤ m) →
      0 ≤ (_compute_impact_factor_score wl c).1 ∧ (_compute_impact_factor_score wl c).1 ≤ 1)
  ∧ (∀ (wl : Whitelist) (c : CandidateWork), c.source = "arxiv" →
      _compute_impact_factor_score wl c = (0.6, none, false))
  ∧ (∀ (wl : Whitelist) (c : CandidateWork), c.source ≠ "arxiv" →
      (∀ issn, issn ∈ c.issns → wl.lookup issn = none) →
      _compute_impact_factor_score wl c = (0.3, none, false))
  ∧ (∀ (wl : Whitelist) (c : CandidateWork) (issn : String) (e : WhitelistEntry),
      c.source ≠ "arxiv" → c.issns = [issn] → issn ≠ "" → wl.lookup issn = some e →
      e.is_cn = true → _compute_impact_factor_score wl c = (0.7, none, true))
  ∧ (∀ (wl : Whitelist) (c : CandidateWork) (issn : String) (e : WhitelistEntry) (m : ℝ),
      c.source ≠ "arxiv" → c.issns = [issn] → issn ≠ "" → wl.lookup issn = some e →
      e.is_cn = false → e.impact_factor = some m →
      _compute_impact_factor_score wl c = (logNormScore m, some m, false)) := by
  refine ⟨?_, ?_, ?_, ?_, ?_, ?_⟩
  · intro m1 m2 h0 h12
    rw [logNormScore, logNormScore]
    refine min_le_min ?_ le_rfl
    have h25 : (0 : ℝ) < Real.log 25 := Real.log_pos (by norm_num)
    have hlog : Real.log (m1 + 1) ≤ Real.log (m2 + 1) :=
      Real.log_le_log (by linarith) (by linarith)
    exact div_le_div_of_nonneg_right hlog h25.le
  · intro wl c hwl
    rw [_compute_impact_factor_score]
    by_cases hsrc : c.source = "arxiv"
    · rw [if_pos hsrc]; norm_num
    · rw [if_neg hsrc]; exact ifScoreLoop_bounds wl hwl c.issns
  · intro wl c hsrc
    rw [_compute_impact_factor_score, if_pos hsrc]
  · intro wl c hsrc hnone
    rw [_compute_impact_factor_score, if_neg hsrc]
    exact ifScoreLoop_all_none wl c.issns hnone
  · intro wl c issn e hsrc hissns hemp hlk hcn
    rw [_compute_impact_factor_score, if_neg hsrc, hissns]
    simp [ifScoreLoop, hlk, hemp, hcn]
  · intro wl c issn e m hsrc hissns hemp hlk hcn himp
    rw [_compute_impact_factor_score, if_neg hsrc, hissns]
    simp [ifScoreLoop, hlk, hemp, hcn, himp]

/-- C8 witness: each branch and both bound clauses at concrete inputs. -/
theorem C8_venue_quality_witness :
    (logNormScore 0 ≤ logNormScore 1)
  ∧ (0 ≤ (_compute_impact_factor_score [] cArxiv).1 ∧
      (_compute_impact_factor_score [] cArxiv).1 ≤ 1)
  ∧ _compute_impact_factor_score [] cArxiv = (0.6, none, false)
  ∧ _compute_impact_factor_score [] cJournal = (0.3, none, false)
  ∧ _compute_impact_factor_score wlCN cJournal = (0.7, none, true)
  ∧ _compute_impact_factor_score wlIF cJournal = (logNormScore 5, some 5, false) :=
  ⟨C8_venue_quality.1 0 1 le_rfl zero_le_one,
   C8_venue_quality.2.1 [] cArxiv (by simp),
   C8_venue_quality.2.2.1 [] cArxiv rfl,
   C8_venue_quality.2.2.2.1 [] cJournal (by decide) (fun issn _ => rfl),
   C8_venue_quality.2.2.2.2.1 wlCN cJournal "1234-5678"
     { title := "J", category := "Area (CN)", impact_factor := none, is_cn := true }
     (by decide) rfl (by decide) rfl rfl,
   C8_venue_quality.2.2.2.2.2 wlIF cJournal "1234-5678"
     { title := "J", category := "Area", impact_factor := some 5, is_cn := false } 5
     (by decide) rfl (by decide) rfl rfl rfl⟩

/-! ### Claim C2 -/

/-- C2: every work produced by the ranker carries a similarity clipped to
[0, 1] (the nearest-neighbor search result is clipped before scoring) and a
score equal to `0.8 * similarity + 0.2 * venue_quality_sub_score`. -/
theorem C2_similarity_clip_blend (wl : Whitelist) (must_read consider : ℝ)
    (candidates : List CandidateWork) (rawInner : List ℝ) (w : ScoredWork)
    (hw : w ∈ WorkRanker.rank wl must_read consider candidates rawInner) :
    (0 ≤ w.similarity ∧ w.similarity ≤ 1) ∧
    w.score = 0.8 * w.similarity + 0.2 * w.impact_factor_score := by
  rw [WorkRanker.rank] at hw
  by_cases hc : candidates = []
  · rw [if_pos hc] at hw
    cases hw
  · rw [if_neg hc] at hw
    rw [List.mem_insertionSort] at hw
    obtain ⟨p, hp, hpw⟩ := List.mem_map.mp hw
    obtain ⟨_, hp2⟩ := List.of_mem_zip hp
    rw [faissSearchTop1] at hp2
    obtain ⟨x, _, hxe⟩ := List.mem_map.mp hp2
    subst hpw
    rw [← hxe]
    refine ⟨⟨?_, ?_⟩, rfl⟩
    · show (0 : ℝ) ≤ clip01 x
      rw [clip01]
      exact le_min (le_max_right x 0) zero_le_one
    · show clip01 x ≤ 1
      exact min_le_right _ _

/-- C2 witness: a singleton arXiv batch with raw inner product 0. -/
theorem C2_similarity_clip_blend_witness :
    ∃ w ∈ WorkRanker.rank [] 0.65 0.45 [cArxiv] [0],
      (0 ≤ w.similarity ∧ w.similarity ≤ 1) ∧
      w.score = 0.8 * w.similarity + 0.2 * w.impact_factor_score := by
  have hne : WorkRanker.rank [] 0.65 0.45 [cArxiv] [0] ≠ [] := by
    have hlen : (WorkRanker.rank [] 0.65 0.45 [cArxiv] [0]).length = 1 := by
      rw [WorkRanker.rank, if_neg (by simp : ¬ ([cArxiv] : List CandidateWork) = [])]
      rw [List.length_insertionSort]
      rfl
    intro h
    rw [h] at hlen
    simp at hlen
  obtain ⟨w, hw⟩ := List.exists_mem_of_ne_nil _ hne
  exact ⟨w, hw, C2_similarity_clip_blend [] 0.65 0.45 [cArxiv] [0] w hw⟩

end ZotWatch
